import Mathlib

/-
  Verification of the feature-extraction pipeline of the
  crosslingual-information-retrieval repository.

  The Python code is shallowly embedded:
  - pandas Series / numpy arrays of numbers become `List ℚ` (or `List ℝ`
    where a Euclidean norm is genuinely real-valued),
  - tokenized sentences become `List String`,
  - Python dictionaries become association lists `List (String × _)` built
    in insertion order, or lookup functions `String → Option _`,
  - float special values (NaN, ±inf) produced by pandas division become an
    explicit value type `PandasVal`,
  - random sampling (`DataFrame.sample(n)`) is modelled by an explicit list
    of picked row indices.
-/

set_option autoImplicit false

/-! ## `number_punctuations_total` (src/data/preprocess_data.py, lines 199-217) -/

/-- The 32 characters of Python's `string.punctuation`, in order. -/
def string_punctuation : List String :=
  ["!", "\"", "#", "$", "%", "&", "\x27", "(", ")", "*", "+", ",", "-", ".", "/",
   ":", ";", "<", "=", ">", "?", "@", "[", "\\", "]", "^", "_", "\x60", "\x7b",
   "|", "\x7d", "~"]

/-- `list_pm` from the source: `string.punctuation` with the end-of-sentence
point removed and the ellipsis token appended. -/
def list_pm : List String :=
  string_punctuation.erase (".") ++ ["..."]

/-- Count of tokens of a tokenized sentence that are punctuation marks
according to `list_pm`. -/
def number_punctuations_total (sentence : List String) : Nat :=
  (sentence.filter (fun word => word ∈ list_pm)).length

theorem string_punctuation_nodup : string_punctuation.Nodup := by decide

theorem mem_list_pm_iff (t : String) :
    t ∈ list_pm ↔ (t ∈ string_punctuation ∧ t ≠ ".") ∨ t = "..." := by
  unfold list_pm
  rw [List.mem_append, List.mem_singleton, string_punctuation_nodup.mem_erase_iff]
  tauto

theorem filter_singleton_length (p : String → Bool) (t : String) :
    (List.filter p [t]).length = if p t then 1 else 0 := by
  by_cases h : p t <;> simp [List.filter_singleton, h]

/-! ## `average_characters` (src/data/preprocess_data.py, lines 280-292) -/

/-- A pandas cell value: either an ordinary number, or one of the float
special values NaN, +inf, -inf that pandas division can produce. -/
inductive PandasVal where
  | val (q : ℚ)
  | nan
  | inf
  | ninf
deriving DecidableEq

/-- Pandas element-wise division on numeric series: division by zero yields
NaN for 0/0, +inf for positive/0 and -inf for negative/0. -/
def pandasDiv (c w : ℚ) : PandasVal :=
  if w = 0 then
    (if c = 0 then PandasVal.nan else if 0 < c then PandasVal.inf else PandasVal.ninf)
  else PandasVal.val (c / w)

/-- `Series.replace(target, repl)` on a single cell. -/
def pandasReplace (x target repl : PandasVal) : PandasVal :=
  if x = target then repl else x

/-- The chain `.replace(np.nan, 0).replace(np.inf, 0).replace(np.log(0), 0)`
from the source; `np.log(0)` evaluates to -inf. -/
def replaceChain (x : PandasVal) : PandasVal :=
  pandasReplace
    (pandasReplace (pandasReplace x PandasVal.nan (PandasVal.val 0))
      PandasVal.inf (PandasVal.val 0))
    PandasVal.ninf (PandasVal.val 0)

/-- `average_characters`: element-wise division of the character counts by
the word counts, with NaN and ±inf replaced by 0. -/
def average_characters (character_vector word_vector : List ℚ) : List PandasVal :=
  ((character_vector.zip word_vector).map (fun p => pandasDiv p.1 p.2)).map replaceChain

theorem replaceChain_pandasDiv (c w : ℚ) :
    replaceChain (pandasDiv c w) = PandasVal.val (if w = 0 then 0 else c / w) := by
  unfold replaceChain pandasDiv pandasReplace
  by_cases hw : w = 0
  · by_cases hc : c = 0
    · simp [hw, hc]
    · by_cases hc2 : 0 < c <;> simp [hw, hc, hc2]
  · simp [hw]

/-- Claim C8: `average_characters` is total and never produces an undefined or
infinite value: at each position the result is the character count divided by
the word count when the word count is nonzero, and 0 when the division yields
NaN or infinity, in particular when the word count is 0. -/
theorem average_characters_total (character_vector word_vector : List ℚ) :
    average_characters character_vector word_vector =
      (character_vector.zip word_vector).map
        (fun p => PandasVal.val (if p.2 = 0 then 0 else p.1 / p.2)) := by
  unfold average_characters
  rw [List.map_map]
  exact List.map_congr_left (fun p _ => replaceChain_pandasDiv p.1 p.2)

/-- Claim C9: `number_punctuations_total` never counts the end-of-sentence
point: a token contributes 1 to the count exactly when it is a standard
punctuation mark other than the point, or the ellipsis token; so the point
contributes 0 while the ellipsis and every other standard punctuation mark
contribute 1 each. -/
theorem number_punctuations_total_spec (s : List String) (t : String) :
    number_punctuations_total (s ++ [t]) =
      number_punctuations_total s +
        (if (t ∈ string_punctuation ∧ t ≠ ".") ∨ t = "..." then 1 else 0) := by
  unfold number_punctuations_total
  rw [List.filter_append, List.length_append]
  congr 1
  rw [filter_singleton_length]
  by_cases h : t ∈ list_pm
  · rw [if_pos (by exact decide_eq_true h), if_pos ((mem_list_pm_iff t).mp h)]
  · rw [if_neg (by simpa using h), if_neg (fun hc => h ((mem_list_pm_iff t).mpr hc))]

/-! ## `DataSet.get_sample` (src/data/dataset_class.py, lines 12-21) -/

/-- A row of the preprocessed parallel dataframe: the source-language
columns, the target-language columns, and the Translation label column. -/
structure PairRow (S T : Type) where
  src : S
  tgt : T
  translation : Int
deriving DecidableEq

/-- A pandas dataframe: an explicit index together with the rows. -/
structure DFrame (R : Type) where
  index : List Nat
  rows : List R
deriving DecidableEq

/-- `df.sample(n).reset_index(drop=True)`, modelled by an explicit list of
picked row positions. -/
def sampleRows {R : Type} (df : List R) (picks : List Nat) : List R :=
  picks.filterMap (fun i => df.get? i)

/-- `DataSet.get_sample`: concatenate a sample of the parallel dataframe with
the column-wise join of independent samples of the source-only and
target-only dataframes, label the latter with Translation = 0, and reset the
index. -/
def get_sample {S T : Type} (preprocessed_dataframe : List (PairRow S T))
    (preprocessed_source : List S) (preprocessed_target : List T)
    (picksRight picksSource picksTarget : List Nat) : DFrame (PairRow S T) :=
  let random_sample_right := sampleRows preprocessed_dataframe picksRight
  let random_sample_wrong :=
    ((sampleRows preprocessed_source picksSource).zip
        (sampleRows preprocessed_target picksTarget)).map
      (fun p => { src := p.1, tgt := p.2, translation := 0 })
  { index := List.range (random_sample_right ++ random_sample_wrong).length,
    rows := random_sample_right ++ random_sample_wrong }

theorem sampleRows_length {R : Type} (df : List R) (picks : List Nat)
    (h : ∀ i ∈ picks, i < df.length) : (sampleRows df picks).length = picks.length := by
  induction picks with
  | nil => rfl
  | cons i is ih =>
    have hi : df.get? i = some (df.get ⟨i, h i (List.mem_cons_self i is)⟩) :=
      List.get?_eq_get (h i (List.mem_cons_self i is))
    have hrest : ∀ j ∈ is, j < df.length := fun j hj => h j (List.mem_cons_of_mem i hj)
    have ih2 := ih hrest
    simp only [sampleRows, List.filterMap_cons, hi, List.length_cons] at ih2 ⊢
    omega

theorem sampleRows_mem {R : Type} (df : List R) (picks : List Nat) :
    ∀ r ∈ sampleRows df picks, r ∈ df := by
  intro r hr
  rcases List.mem_filterMap.mp hr with ⟨i, _, hget⟩
  exact List.get?_mem hget

/-- Claim C1: after `get_sample` with three valid samples of size `n`, the
dataset holds exactly `2 * n` rows, namely the `n` sampled correct rows
followed by the `n` mismatched wrong rows obtained by joining the source
sample and the target sample column-wise, and the index is reset to
`0 .. 2 * n - 1`. -/
theorem get_sample_spec {S T : Type} (preprocessed_dataframe : List (PairRow S T))
    (preprocessed_source : List S) (preprocessed_target : List T)
    (picksRight picksSource picksTarget : List Nat) (n : Nat)
    (hR : picksRight.length = n) (hS : picksSource.length = n) (hT : picksTarget.length = n)
    (hRv : ∀ i ∈ picksRight, i < preprocessed_dataframe.length)
    (hSv : ∀ i ∈ picksSource, i < preprocessed_source.length)
    (hTv : ∀ i ∈ picksTarget, i < preprocessed_target.length) :
    (get_sample preprocessed_dataframe preprocessed_source preprocessed_target
        picksRight picksSource picksTarget).rows.length = 2 * n ∧
    (get_sample preprocessed_dataframe preprocessed_source preprocessed_target
        picksRight picksSource picksTarget).rows =
      sampleRows preprocessed_dataframe picksRight ++
        ((sampleRows preprocessed_source picksSource).zip
            (sampleRows preprocessed_target picksTarget)).map
          (fun p => { src := p.1, tgt := p.2, translation := 0 }) ∧
    (get_sample preprocessed_dataframe preprocessed_source preprocessed_target
        picksRight picksSource picksTarget).index = List.range (2 * n) := by
  have hr : (sampleRows preprocessed_dataframe picksRight).length = n := by
    rw [sampleRows_length preprocessed_dataframe picksRight hRv, hR]
  have hs : (sampleRows preprocessed_source picksSource).length = n := by
    rw [sampleRows_length preprocessed_source picksSource hSv, hS]
  have ht : (sampleRows preprocessed_target picksTarget).length = n := by
    rw [sampleRows_length preprocessed_target picksTarget hTv, hT]
  have hlen : (get_sample preprocessed_dataframe preprocessed_source preprocessed_target
      picksRight picksSource picksTarget).rows.length = 2 * n := by
    simp [get_sample, List.length_zip, hr, hs, ht]
    omega
  refine ⟨hlen, rfl, ?_⟩
  simpa [get_sample] using congrArg List.range hlen

/-- Claim C6: after `get_sample` with three valid samples of size `n`, the
first `n` rows of the dataset are exactly the rows sampled unchanged from the
preprocessed parallel dataframe (so they keep their original Translation
values), and every row of the mismatched wrong part has Translation = 0. -/
theorem get_sample_labels {S T : Type} (preprocessed_dataframe : List (PairRow S T))
    (preprocessed_source : List S) (preprocessed_target : List T)
    (picksRight picksSource picksTarget : List Nat) (n : Nat)
    (hR : picksRight.length = n)
    (hRv : ∀ i ∈ picksRight, i < preprocessed_dataframe.length) :
    (get_sample preprocessed_dataframe preprocessed_source preprocessed_target
        picksRight picksSource picksTarget).rows.take n =
      sampleRows preprocessed_dataframe picksRight ∧
    (∀ r ∈ (get_sample preprocessed_dataframe preprocessed_source preprocessed_target
        picksRight picksSource picksTarget).rows.take n, r ∈ preprocessed_dataframe) ∧
    (∀ r ∈ (get_sample preprocessed_dataframe preprocessed_source preprocessed_target
        picksRight picksSource picksTarget).rows.drop n, r.translation = 0) := by
  have hr : (sampleRows preprocessed_dataframe picksRight).length = n := by
    rw [sampleRows_length preprocessed_dataframe picksRight hRv, hR]
  have htake : (get_sample preprocessed_dataframe preprocessed_source preprocessed_target
      picksRight picksSource picksTarget).rows.take n =
      sampleRows preprocessed_dataframe picksRight := by
    simp only [get_sample]
    rw [List.take_append_of_le_length (le_of_eq hr.symm), ← hr, List.take_length]
  have hdrop : (get_sample preprocessed_dataframe preprocessed_source preprocessed_target
      picksRight picksSource picksTarget).rows.drop n =
      ((sampleRows preprocessed_source picksSource).zip
          (sampleRows preprocessed_target picksTarget)).map
        (fun p => { src := p.1, tgt := p.2, translation := 0 }) := by
    simp only [get_sample]
    rw [List.drop_append_of_le_length (le_of_eq hr.symm), ← hr, List.drop_length,
      List.nil_append]
  refine ⟨htake, ?_, ?_⟩
  · intro r hrmem
    rw [htake] at hrmem
    exact sampleRows_mem preprocessed_dataframe picksRight r hrmem
  · intro r hrmem
    rw [hdrop] at hrmem
    rcases List.mem_map.mp hrmem with ⟨p, _, hp⟩
    rw [← hp]

/-- Witness for C1 at a concrete one-row instance. -/
theorem get_sample_spec_witness :
    (get_sample [({ src := 1, tgt := 2, translation := 5 } : PairRow Nat Nat)]
        [7] [8] [0] [0] [0]).rows.length = 2 * 1 ∧
    (get_sample [({ src := 1, tgt := 2, translation := 5 } : PairRow Nat Nat)]
        [7] [8] [0] [0] [0]).rows =
      sampleRows [({ src := 1, tgt := 2, translation := 5 } : PairRow Nat Nat)] [0] ++
        ((sampleRows [7] [0]).zip (sampleRows [8] [0])).map
          (fun p => { src := p.1, tgt := p.2, translation := 0 }) ∧
    (get_sample [({ src := 1, tgt := 2, translation := 5 } : PairRow Nat Nat)]
        [7] [8] [0] [0] [0]).index = List.range (2 * 1) :=
  get_sample_spec [{ src := 1, tgt := 2, translation := 5 }] [7] [8] [0] [0] [0] 1
    (by decide) (by decide) (by decide) (by decide) (by decide) (by decide)

/-- Witness for C6 at a concrete one-row instance. -/
theorem get_sample_labels_witness :
    (get_sample [({ src := 1, tgt := 2, translation := 5 } : PairRow Nat Nat)]
        [7] [8] [0] [0] [0]).rows.take 1 =
      sampleRows [({ src := 1, tgt := 2, translation := 5 } : PairRow Nat Nat)] [0] ∧
    (∀ r ∈ (get_sample [({ src := 1, tgt := 2, translation := 5 } : PairRow Nat Nat)]
        [7] [8] [0] [0] [0]).rows.take 1,
      r ∈ [({ src := 1, tgt := 2, translation := 5 } : PairRow Nat Nat)]) ∧
    (∀ r ∈ (get_sample [({ src := 1, tgt := 2, translation := 5 } : PairRow Nat Nat)]
        [7] [8] [0] [0] [0]).rows.drop 1, r.translation = 0) :=
  get_sample_labels [{ src := 1, tgt := 2, translation := 5 }] [7] [8] [0] [0] [0] 1
    (by decide) (by decide)

/-! ## `translate_words` (src/data/preprocess_data.py, lines 511-522) -/

/-- A Python dictionary lookup `translation_dictionary[word]`: the value when
the key is present, a KeyError carrying the key otherwise. -/
def dictLookup (translation_dictionary : String → Option String) (word : String) :
    Except String String :=
  match translation_dictionary word with
  | some t => Except.ok t
  | none => Except.error word

/-- `calculate_translations` from the source: appends the translation of each
word, and on a KeyError it `continue`s, silently skipping the word. -/
def calculate_translations (translation_dictionary : String → Option String)
    (word_list : List String) : List String :=
  word_list.foldl
    (fun translation_list word =>
      match dictLookup translation_dictionary word with
      | Except.ok t => translation_list ++ [t]
      | Except.error _ => translation_list) []

/-- `translate_words`: apply `calculate_translations` to every token list. -/
def translate_words (token_vector : List (List String))
    (translation_dictionary : String → Option String) : List (List String) :=
  token_vector.map (fun token_list => calculate_translations translation_dictionary token_list)

/-- Modelled from the spec: the claimed behaviour of `translate_words` in
which the lookup error for a word missing from the translation dictionary
propagates to the caller instead of being caught (the module
`src.features.sentence_based` is absent from the sources, but this claim is
about `translate_words`, whose code is present; this definition captures the
propagation behaviour the claim asserts, to be compared with the code). -/
def calculate_translations_propagating (translation_dictionary : String → Option String)
    (word_list : List String) : Except String (List String) :=
  word_list.foldl
    (fun acc word => do
      let l ← acc
      let t ← dictLookup translation_dictionary word
      pure (l ++ [t]))
    (Except.ok [])

theorem calculate_translations_append (translation_dictionary : String → Option String)
    (word_list : List String) (acc : List String) :
    word_list.foldl
      (fun translation_list word =>
        match dictLookup translation_dictionary word with
        | Except.ok t => translation_list ++ [t]
        | Except.error _ => translation_list) acc =
      acc ++ word_list.filterMap translation_dictionary := by
  induction word_list generalizing acc with
  | nil => simp
  | cons w ws ih =>
    rw [List.foldl_cons, List.filterMap_cons]
    cases h : translation_dictionary w with
    | none =>
      have hd : dictLookup translation_dictionary w = Except.error w := by
        simp [dictLookup, h]
      simp only [hd]
      exact ih acc
    | some t =>
      have hd : dictLookup translation_dictionary w = Except.ok t := by
        simp [dictLookup, h]
      simp only [hd]
      rw [ih (acc ++ [t]), List.append_assoc]
      rfl

/-- Counterexample to C5 as stated: with a translation dictionary lacking an
entry for the word, `calculate_translations` returns normally with the word
dropped, whereas the claimed propagation behaviour returns the lookup
error. -/
theorem calculate_translations_catches :
    calculate_translations (fun _ => none) ["a"] = [] ∧
    calculate_translations_propagating (fun _ => none) ["a"] = Except.error ("a") :=
  ⟨rfl, rfl⟩

/-- Claim C5 (amended): `translate_words` does contain recovery logic: the
KeyError raised by looking up a word missing from the translation dictionary
is caught and the word is silently skipped, so each token list is translated
to the list of translations of exactly those words present in the
dictionary, in order, and no lookup error ever propagates. -/
theorem translate_words_spec (token_vector : List (List String))
    (translation_dictionary : String → Option String) :
    translate_words token_vector translation_dictionary =
      token_vector.map (fun token_list => token_list.filterMap translation_dictionary) := by
  unfold translate_words calculate_translations
  exact List.map_congr_left
    (fun token_list _ => calculate_translations_append translation_dictionary token_list [])

/-! ## `FeatureGeneration` (src/features/feature_generation_class.py) -/

/-- The fixed list of column-name stems compared by `feature_generation`,
exactly as written in `FeatureGeneration.__init__`. -/
def feature_difference_list : List String :=
  ["number_punctuations_total", "number_words",
   "number_unique_words", "number_!", "number_\"",
   "number_#", "number_$", "number_%",
   "number_&", "number_\x27", "number_(",
   "number_)", "number_*", "number_+",
   "number_,", "number_-", "number_.",
   "number_/", "number_:", "number_;",
   "number_<", "number_=", "number_>",
   "number_?", "number_@", "number_[",
   "number_\\", "number_]", "number_^",
   "number__", "number_\x60", "number_\x7b",
   "number_|", "number_\x7d", "number_~",
   "number_characters", "characters_avg",
   "number_ADJ", "number_ADP",
   "number_ADV", "number_AUX", "number_CONJ",
   "number_CCONJ", "number_DET", "number_INTJ",
   "number_NOUN", "number_NUM", "number_PRT",
   "number_PRON", "number_PROPN", "number_SCONJ",
   "number_SYM", "number_VERB", "number_X",
   "number_Pres", "number_Past", "number_",
   "score_polarity", "score_subjectivity",
   "number_stopwords"]

/-- The three derived columns added for one stem by the loop body of
`feature_generation`.  The module `src.features.sentence_based` is absent
from the sources, so the three difference functions and column addition are
abstract parameters; the spec describes them as the absolute, relative and
length-normalized differences. -/
def feature_triple {C : Type} (difference_numerical relative_difference_numerical : C → C → C)
    (normalized_difference_numerical : C → C → C → C → C) (colAdd : C → C → C)
    (preprocessed_dataset : String → C) (feature : String) : List (String × C) :=
  [(feature ++ "_difference",
      difference_numerical (preprocessed_dataset (feature ++ "_source"))
        (preprocessed_dataset (feature ++ "_target"))),
   (feature ++ "_difference_relative",
      relative_difference_numerical (preprocessed_dataset (feature ++ "_source"))
        (preprocessed_dataset (feature ++ "_target"))),
   (feature ++ "_difference_normalized",
      normalized_difference_numerical (preprocessed_dataset (feature ++ "_source"))
        (preprocessed_dataset (feature ++ "_target"))
        (colAdd (preprocessed_dataset ("number_punctuations_total_source"))
          (preprocessed_dataset ("number_words_source")))
        (colAdd (preprocessed_dataset ("number_punctuations_total_target"))
          (preprocessed_dataset ("number_words_target"))))]

/-- `FeatureGeneration.feature_generation`: iterate the stem list, adding the
three derived columns per stem to the (initially empty) feature dataframe in
order, then copy the Translation column of the preprocessed dataset. -/
def feature_generation {C : Type}
    (difference_numerical relative_difference_numerical : C → C → C)
    (normalized_difference_numerical : C → C → C → C → C) (colAdd : C → C → C)
    (preprocessed_dataset : String → C) : List (String × C) :=
  feature_difference_list.foldl
    (fun feature_dataframe feature =>
      feature_dataframe ++
        feature_triple difference_numerical relative_difference_numerical
          normalized_difference_numerical colAdd preprocessed_dataset feature)
    []
  ++ [(("Translation" : String), preprocessed_dataset ("Translation"))]

theorem foldl_append_eq_flatMap {A C : Type} (f : A → List C) (l : List A) (init : List C) :
    l.foldl (fun acc x => acc ++ f x) init = init ++ l.flatMap f := by
  induction l generalizing init with
  | nil => simp
  | cons x xs ih => simp [ih, List.append_assoc]

theorem feature_generation_eq_bind {C : Type}
    (difference_numerical relative_difference_numerical : C → C → C)
    (normalized_difference_numerical : C → C → C → C → C) (colAdd : C → C → C)
    (preprocessed_dataset : String → C) :
    feature_generation difference_numerical relative_difference_numerical
        normalized_difference_numerical colAdd preprocessed_dataset =
      feature_difference_list.flatMap
        (feature_triple difference_numerical relative_difference_numerical
          normalized_difference_numerical colAdd preprocessed_dataset)
      ++ [(("Translation" : String), preprocessed_dataset ("Translation"))] := by
  unfold feature_generation
  rw [foldl_append_eq_flatMap, List.nil_append]

/-- Counterexample to C2 as stated: `feature_difference_list` has 60 stems,
not 59. -/
theorem feature_difference_list_length_ne :
    feature_difference_list.length ≠ 59 ∧ feature_difference_list.length = 60 := by
  constructor
  · decide
  · decide

/-- Claim C2 (amended): `feature_generation` iterates the fixed
`feature_difference_list` of 60 (not 59) column-name stems and, for every
stem `F` in the list and in list order, appends to the feature dataframe
exactly the three derived columns `F_difference`, `F_difference_relative`
and `F_difference_normalized` computed by the three difference functions
from the columns `F_source` and `F_target` (the normalized one additionally
from the two sentence-length columns); finally it copies the Translation
column of the preprocessed dataset unchanged as the last column. -/
theorem feature_generation_spec {C : Type}
    (difference_numerical relative_difference_numerical : C → C → C)
    (normalized_difference_numerical : C → C → C → C → C) (colAdd : C → C → C)
    (preprocessed_dataset : String → C) :
    feature_difference_list.length = 60 ∧
    feature_generation difference_numerical relative_difference_numerical
        normalized_difference_numerical colAdd preprocessed_dataset =
      feature_difference_list.flatMap
        (fun feature =>
          [(feature ++ "_difference",
              difference_numerical (preprocessed_dataset (feature ++ "_source"))
                (preprocessed_dataset (feature ++ "_target"))),
           (feature ++ "_difference_relative",
              relative_difference_numerical (preprocessed_dataset (feature ++ "_source"))
                (preprocessed_dataset (feature ++ "_target"))),
           (feature ++ "_difference_normalized",
              normalized_difference_numerical (preprocessed_dataset (feature ++ "_source"))
                (preprocessed_dataset (feature ++ "_target"))
                (colAdd (preprocessed_dataset ("number_punctuations_total_source"))
                  (preprocessed_dataset ("number_words_source")))
                (colAdd (preprocessed_dataset ("number_punctuations_total_target"))
                  (preprocessed_dataset ("number_words_target"))))])
      ++ [(("Translation" : String), preprocessed_dataset ("Translation"))] := by
  refine ⟨by decide, ?_⟩
  rw [feature_generation_eq_bind]
  rfl

/-- Claim C7: for every stem `F` of `feature_difference_list`, the column
`F_difference_normalized` produced by `feature_generation` is computed by the
normalized-difference function from `F_source` and `F_target` with the
normalizers `number_punctuations_total_source + number_words_source` and
`number_punctuations_total_target + number_words_target`. -/
theorem feature_generation_normalized_args {C : Type}
    (difference_numerical relative_difference_numerical : C → C → C)
    (normalized_difference_numerical : C → C → C → C → C) (colAdd : C → C → C)
    (preprocessed_dataset : String → C) (feature : String)
    (hf : feature ∈ feature_difference_list) :
    (feature ++ "_difference_normalized",
        normalized_difference_numerical (preprocessed_dataset (feature ++ "_source"))
          (preprocessed_dataset (feature ++ "_target"))
          (colAdd (preprocessed_dataset ("number_punctuations_total_source"))
            (preprocessed_dataset ("number_words_source")))
          (colAdd (preprocessed_dataset ("number_punctuations_total_target"))
            (preprocessed_dataset ("number_words_target")))) ∈
      feature_generation difference_numerical relative_difference_numerical
        normalized_difference_numerical colAdd preprocessed_dataset := by
  rw [feature_generation_eq_bind]
  refine List.mem_append_left _ (List.mem_flatMap.mpr ⟨feature, hf, ?_⟩)
  unfold feature_triple
  simp

/-- Witness for C7 at the stem `number_words` with rational columns. -/
theorem feature_generation_normalized_args_witness :
    ((("number_words" : String) ++ "_difference_normalized",
        (fun (a b u v : ℚ) => (a - b) / (u + v))
          ((fun _ => (1 : ℚ)) (("number_words" : String) ++ "_source"))
          ((fun _ => (1 : ℚ)) (("number_words" : String) ++ "_target"))
          ((fun (x y : ℚ) => x + y) ((fun _ => (1 : ℚ)) ("number_punctuations_total_source"))
            ((fun _ => (1 : ℚ)) ("number_words_source")))
          ((fun (x y : ℚ) => x + y) ((fun _ => (1 : ℚ)) ("number_punctuations_total_target"))
            ((fun _ => (1 : ℚ)) ("number_words_target")))) ∈
      feature_generation (fun a b => a - b) (fun a b => a / b)
        (fun a b u v => (a - b) / (u + v)) (fun x y => x + y)
        (fun _ => (1 : ℚ))) :=
  feature_generation_normalized_args (fun a b => a - b) (fun a b => a / b)
    (fun a b u v => (a - b) / (u + v)) (fun x y => x + y) (fun _ => (1 : ℚ))
    "number_words" (by decide)

/-! ## `word_embeddings` (src/data/preprocess_data.py, lines 428-454) -/

/-- Python truthiness of `embedding_dictionary.get(token)`: `None` (missing
key) and the index `0` are falsy, every other index is truthy.  The source
guards every embedding access with `if embedding_dictionary.get(token):`. -/
def truthyIndex : Option Nat → Bool
  | some k => k != 0
  | none => false

/-- `embedding_array[embedding_dictionary.get(token)]`: the row of the
embedding array at the index the dictionary assigns to the token (the source
only evaluates this under the truthiness guard, so the defaults are never
reached on the guarded paths). -/
def embeddingAt (embedding_array : List (List ℚ)) (embedding_dictionary : String → Option Nat)
    (token : String) : List ℚ :=
  embedding_array.getD ((embedding_dictionary token).getD 0) []

/-- Python dictionary assignment `dict[t] = v` on an association list kept in
insertion order: overwrite the value if the key is present (keeping its
position), otherwise append the new entry. -/
def dictInsert {V : Type} (acc : List (String × V)) (t : String) (v : V) : List (String × V) :=
  if acc.any (fun p => p.1 == t) then
    acc.map (fun p => if p.1 == t then (p.1, v) else p)
  else acc ++ [(t, v)]

/-- One iteration of the loop of `token_list_embedding`: insert the token's
embedding when `embedding_dictionary.get(token)` is truthy, else skip. -/
def tleStep (embedding_array : List (List ℚ)) (embedding_dictionary : String → Option Nat)
    (acc : List (String × List ℚ)) (token : String) : List (String × List ℚ) :=
  if truthyIndex (embedding_dictionary token) then
    dictInsert acc token (embeddingAt embedding_array embedding_dictionary token)
  else acc

/-- `token_list_embedding`: the dataframe (as an insertion-ordered
association list of columns) of embeddings of the tokens of the list whose
dictionary entry is truthy. -/
def token_list_embedding (embedding_array : List (List ℚ))
    (embedding_dictionary : String → Option Nat) (token_list : List String) :
    List (String × List ℚ) :=
  token_list.foldl (tleStep embedding_array embedding_dictionary) []

/-- `word_embeddings`: apply `token_list_embedding` to every token list. -/
def word_embeddings (token_vector : List (List String)) (embedding_array : List (List ℚ))
    (embedding_dictionary : String → Option Nat) : List (List (String × List ℚ)) :=
  token_vector.map (token_list_embedding embedding_array embedding_dictionary)

/-! ## `create_translation_dictionary` (src/data/preprocess_data.py, lines 457-508) -/

/-- `set([item for sublist in token_vector for item in sublist])`, modelled
as first-flattening then deduplicating; Python set iteration order is
unspecified and none of the proved properties depend on the order. -/
def uniqueTokens (token_vector : List (List String)) : List String :=
  token_vector.flatten.dedup

/-- The tokens of `toks`, in order, whose dictionary entry is truthy; these
are the keys of the embedding-subset dictionaries built by the loops of
`create_translation_dictionary`. -/
def embeddedTokens (embedding_dictionary : String → Option Nat) (toks : List String) :
    List String :=
  toks.filter (fun t => truthyIndex (embedding_dictionary t))

/-- `np.array(list(word_embedding_dictionary.values()))`: the embeddings of
the embedded tokens, in insertion order. -/
def embeddingSubset (embedding_array : List (List ℚ))
    (embedding_dictionary : String → Option Nat) (toks : List String) : List (List ℚ) :=
  (embeddedTokens embedding_dictionary toks).map
    (embeddingAt embedding_array embedding_dictionary)

/-- `np.dot` of two vectors. -/
def dotProduct (u v : List ℚ) : ℚ :=
  ((u.zip v).map (fun p => p.1 * p.2)).sum

/-- `np.argsort(-similarity_cos)[0]`: an index of a maximal element of the
score list.  Ties are resolved towards the earlier index here; `np.argsort`
leaves the order of ties unspecified, and none of the proved properties
depend on it. -/
def argmaxIdx : List ℚ → Nat
  | [] => 0
  | x :: xs =>
    if xs = [] then 0
    else if x < xs.getD (argmaxIdx xs) 0 then argmaxIdx xs + 1 else 0

/-- The inner `translation` function: the target token (via the index-keyed
subset dictionary, modelled positionally) whose subset embedding has the
largest dot product with the source word embedding. -/
def translation (norm_src_word_emb : List ℚ) (embedding_subset_target : List (List ℚ))
    (embedding_subset_dictionary_target : List String) : String :=
  embedding_subset_dictionary_target.getD
    (argmaxIdx (embedding_subset_target.map (fun v => dotProduct norm_src_word_emb v))) ""

/-- One direction of `create_translation_dictionary`: for every unique
source-side token with a truthy dictionary entry, in order, map it to its
`translation` against the target-side embedding subset. -/
def translationDirection (uniqueSource uniqueTarget : List String)
    (arrSrc : List (List ℚ)) (dictSrc : String → Option Nat)
    (arrTrg : List (List ℚ)) (dictTrg : String → Option Nat) : List (String × String) :=
  (embeddedTokens dictSrc uniqueSource).map
    (fun token =>
      (token,
        translation (embeddingAt arrSrc dictSrc token)
          (embeddingSubset arrTrg dictTrg uniqueTarget)
          (embeddedTokens dictTrg uniqueTarget)))

/-- `create_translation_dictionary`: the source-to-target and
target-to-source nearest-neighbor translation dictionaries. -/
def create_translation_dictionary (token_vector_source token_vector_target : List (List String))
    (embedding_array_normalized_source : List (List ℚ))
    (embedding_dictionary_source : String → Option Nat)
    (embedding_array_normalized_target : List (List ℚ))
    (embedding_dictionary_target : String → Option Nat) :
    List (String × String) × List (String × String) :=
  (translationDirection (uniqueTokens token_vector_source) (uniqueTokens token_vector_target)
      embedding_array_normalized_source embedding_dictionary_source
      embedding_array_normalized_target embedding_dictionary_target,
   translationDirection (uniqueTokens token_vector_target) (uniqueTokens token_vector_source)
      embedding_array_normalized_target embedding_dictionary_target
      embedding_array_normalized_source embedding_dictionary_source)

theorem truthyIndex_iff (o : Option Nat) :
    truthyIndex o = true ↔ ∃ k, o = some k ∧ k ≠ 0 := by
  cases o with
  | none => simp [truthyIndex]
  | some k => simp [truthyIndex]

theorem argmaxIdx_cons (x : ℚ) (xs : List ℚ) (hxs : xs ≠ []) :
    argmaxIdx (x :: xs) =
      if x < xs.getD (argmaxIdx xs) 0 then argmaxIdx xs + 1 else 0 := by
  simp only [argmaxIdx]
  rw [if_neg hxs]

theorem argmaxIdx_lt (l : List ℚ) (h : l ≠ []) : argmaxIdx l < l.length := by
  induction l with
  | nil => exact absurd rfl h
  | cons x xs ih =>
    by_cases hxs : xs = []
    · subst hxs
      simp [argmaxIdx]
    · rw [argmaxIdx_cons x xs hxs]
      by_cases hlt : x < xs.getD (argmaxIdx xs) 0
      · rw [if_pos hlt]
        have := ih hxs
        simp only [List.length_cons]
        omega
      · rw [if_neg hlt]
        simp

theorem argmaxIdx_spec (l : List ℚ) :
    ∀ i, i < l.length → l.getD i 0 ≤ l.getD (argmaxIdx l) 0 := by
  induction l with
  | nil => intro i hi; simp at hi
  | cons x xs ih =>
    intro i hi
    by_cases hxs : xs = []
    · subst hxs
      have hz : i = 0 := by simpa using hi
      subst hz
      simp [argmaxIdx]
    · rw [argmaxIdx_cons x xs hxs]
      by_cases hlt : x < xs.getD (argmaxIdx xs) 0
      · rw [if_pos hlt, List.getD_cons_succ]
        cases i with
        | zero => exact le_of_lt (by simpa using hlt)
        | succ j =>
          rw [List.getD_cons_succ]
          exact ih j (by simpa using hi)
      · rw [if_neg hlt, List.getD_cons_zero]
        cases i with
        | zero => simp
        | succ j =>
          rw [List.getD_cons_succ]
          exact le_trans (ih j (by simpa using hi)) (not_lt.mp hlt)

theorem getD_map_eq (l : List String) (f : String → ℚ) (i : Nat) (hi : i < l.length) :
    (l.map f).getD i 0 = f (l.getD i "") := by
  rw [List.getD_eq_getElem l "" hi, List.getD_eq_getElem (l.map f) 0 (by simpa using hi)]
  simp

/-- The token selected by `translation` over a nonempty token list is a
member of the list and attains the maximal dot product. -/
theorem translation_argmax (srcEmb : List ℚ) (arrTrg : List (List ℚ))
    (dictTrg : String → Option Nat) (toks : List String) (hne : toks ≠ []) :
    translation srcEmb ((toks.map (embeddingAt arrTrg dictTrg))) toks ∈ toks ∧
    ∀ u ∈ toks,
      dotProduct srcEmb (embeddingAt arrTrg dictTrg u) ≤
        dotProduct srcEmb
          (embeddingAt arrTrg dictTrg (translation srcEmb (toks.map (embeddingAt arrTrg dictTrg)) toks)) := by
  have hmm : (toks.map (embeddingAt arrTrg dictTrg)).map (fun v => dotProduct srcEmb v) =
      toks.map (fun u => dotProduct srcEmb (embeddingAt arrTrg dictTrg u)) := by
    rw [List.map_map]
    rfl
  have hlen : (toks.map (fun u => dotProduct srcEmb (embeddingAt arrTrg dictTrg u))).length =
      toks.length := by simp
  have hnem : toks.map (fun u => dotProduct srcEmb (embeddingAt arrTrg dictTrg u)) ≠ [] := by
    simpa using hne
  have hj : argmaxIdx (toks.map (fun u => dotProduct srcEmb (embeddingAt arrTrg dictTrg u))) <
      toks.length := by
    have := argmaxIdx_lt _ hnem
    omega
  have htrans : translation srcEmb (toks.map (embeddingAt arrTrg dictTrg)) toks =
      toks.getD (argmaxIdx (toks.map (fun u => dotProduct srcEmb (embeddingAt arrTrg dictTrg u)))) "" := by
    unfold translation
    rw [hmm]
  constructor
  · rw [htrans, List.getD_eq_getElem toks "" hj]
    exact List.getElem_mem hj
  · intro u hu
    rcases List.mem_iff_getElem.mp hu with ⟨i, hilt, rfl⟩
    have hstep := argmaxIdx_spec (toks.map (fun u => dotProduct srcEmb (embeddingAt arrTrg dictTrg u)))
      i (by simpa using hilt)
    rw [getD_map_eq toks _ i hilt, getD_map_eq toks _ _ hj] at hstep
    rw [htrans]
    rw [List.getD_eq_getElem toks "" hilt] at hstep
    exact hstep

theorem lookup_map_self {V : Type} (toks : List String) (F : String → V) (t : String)
    (ht : t ∈ toks) :
    (toks.map (fun tok => (tok, F tok))).lookup t = some (F t) := by
  induction toks with
  | nil => simp at ht
  | cons a as ih =>
    by_cases hta : t = a
    · subst hta
      simp [List.lookup]
    · have hmem : t ∈ as := by
        rcases List.mem_cons.mp ht with h | h
        · exact absurd h hta
        · exact h
      have hbeq : (t == a) = false := beq_eq_false_iff_ne.mpr hta
      rw [List.map_cons]
      simp only [List.lookup, hbeq]
      exact ih hmem

/-- Counterexample to C3 as stated: the source token has an entry (index 0)
in the source embedding dictionary, yet the produced source-to-target
translation dictionary maps it to nothing, because the code guards with the
Python truthiness test `if embedding_dictionary_source.get(token):`, which
treats the index 0 like a missing key. -/
theorem create_translation_dictionary_skips_index_zero :
    ((fun t => if t = "a" then some 0 else none) : String → Option Nat) "a" = some 0 ∧
    ((create_translation_dictionary [["a"]] [["b"]] [[1]]
        (fun t => if t = "a" then some 0 else none) [[0], [1]]
        (fun t => if t = "b" then some 1 else none)).1.lookup ("a")) = none :=
  ⟨rfl, rfl⟩

/-- Claim C3 (amended): for every source token whose entry in the source
embedding dictionary is a nonzero index (the code's truthiness guard skips
both missing tokens and the token at index 0), the source-to-target
dictionary built by `create_translation_dictionary` maps it to a target
token that is among the target tokens with nonzero-index entries and whose
embedding attains the maximal dot product with the token's source embedding;
the target-to-source direction is the same construction with the roles
swapped. -/
theorem create_translation_dictionary_spec
    (token_vector_source token_vector_target : List (List String))
    (arrSrc : List (List ℚ)) (dictSrc : String → Option Nat)
    (arrTrg : List (List ℚ)) (dictTrg : String → Option Nat)
    (hne : embeddedTokens dictTrg (uniqueTokens token_vector_target) ≠ [])
    (t : String) (ht : t ∈ uniqueTokens token_vector_source)
    (htr : truthyIndex (dictSrc t) = true) :
    (∃ tTrg,
      (create_translation_dictionary token_vector_source token_vector_target
          arrSrc dictSrc arrTrg dictTrg).1.lookup t = some tTrg ∧
      tTrg ∈ embeddedTokens dictTrg (uniqueTokens token_vector_target) ∧
      ∀ u ∈ embeddedTokens dictTrg (uniqueTokens token_vector_target),
        dotProduct (embeddingAt arrSrc dictSrc t) (embeddingAt arrTrg dictTrg u) ≤
          dotProduct (embeddingAt arrSrc dictSrc t) (embeddingAt arrTrg dictTrg tTrg)) ∧
    (create_translation_dictionary token_vector_source token_vector_target
        arrSrc dictSrc arrTrg dictTrg).2 =
      (create_translation_dictionary token_vector_target token_vector_source
          arrTrg dictTrg arrSrc dictSrc).1 := by
  refine ⟨?_, rfl⟩
  have htm : t ∈ embeddedTokens dictSrc (uniqueTokens token_vector_source) :=
    List.mem_filter.mpr ⟨ht, htr⟩
  have hlk := lookup_map_self (embeddedTokens dictSrc (uniqueTokens token_vector_source))
    (fun token =>
      translation (embeddingAt arrSrc dictSrc token)
        (embeddingSubset arrTrg dictTrg (uniqueTokens token_vector_target))
        (embeddedTokens dictTrg (uniqueTokens token_vector_target))) t htm
  have hargmax := translation_argmax (embeddingAt arrSrc dictSrc t) arrTrg dictTrg
    (embeddedTokens dictTrg (uniqueTokens token_vector_target)) hne
  refine ⟨translation (embeddingAt arrSrc dictSrc t)
      (embeddingSubset arrTrg dictTrg (uniqueTokens token_vector_target))
      (embeddedTokens dictTrg (uniqueTokens token_vector_target)), ?_, ?_, ?_⟩
  · exact hlk
  · exact hargmax.1
  · exact hargmax.2

theorem dictInsert_keys {V : Type} (acc : List (String × V)) (t : String) (v : V) :
    (dictInsert acc t v).map Prod.fst =
      if acc.any (fun p => p.1 == t) = true then acc.map Prod.fst
      else acc.map Prod.fst ++ [t] := by
  unfold dictInsert
  by_cases h : acc.any (fun p => p.1 == t) = true
  · rw [if_pos h, if_pos h, List.map_map]
    refine List.map_congr_left ?_
    intro p _
    by_cases hp : p.1 = t
    · simp [hp]
    · simp [hp]
  · rw [if_neg h, if_neg h, List.map_append]
    rfl

theorem dictInsert_keys_mem {V : Type} (acc : List (String × V)) (t : String) (v : V)
    (s : String) :
    s ∈ (dictInsert acc t v).map Prod.fst ↔ s ∈ acc.map Prod.fst ∨ s = t := by
  rw [dictInsert_keys]
  by_cases h : acc.any (fun p => p.1 == t) = true
  · rw [if_pos h]
    constructor
    · exact Or.inl
    · rintro (hs | rfl)
      · exact hs
      · rcases List.any_eq_true.mp h with ⟨p, hp, hpt⟩
        have hps : p.1 = s := by simpa using hpt
        exact hps ▸ List.mem_map.mpr ⟨p, hp, rfl⟩
  · rw [if_neg h]
    simp [List.mem_append]

theorem dictInsert_nodup {V : Type} (acc : List (String × V)) (t : String) (v : V)
    (h : (acc.map Prod.fst).Nodup) : ((dictInsert acc t v).map Prod.fst).Nodup := by
  rw [dictInsert_keys]
  by_cases hany : acc.any (fun p => p.1 == t) = true
  · rw [if_pos hany]
    exact h
  · rw [if_neg hany]
    have htk : t ∉ acc.map Prod.fst := by
      intro hmem
      rcases List.mem_map.mp hmem with ⟨p, hp, hpt⟩
      exact hany (List.any_eq_true.mpr ⟨p, hp, by simp [hpt]⟩)
    rw [List.nodup_append]
    exact ⟨h, List.nodup_singleton t, by simpa [List.disjoint_singleton] using htk⟩

theorem dictInsert_forall {V : Type} (Q : String × V → Prop) (acc : List (String × V))
    (t : String) (v : V) (hacc : ∀ p ∈ acc, Q p) (ht : Q (t, v)) :
    ∀ p ∈ dictInsert acc t v, Q p := by
  intro p hp
  unfold dictInsert at hp
  by_cases h : acc.any (fun q => q.1 == t) = true
  · rw [if_pos h] at hp
    rcases List.mem_map.mp hp with ⟨q, hq, rfl⟩
    by_cases hqt : q.1 = t
    · rw [if_pos (show (q.1 == t) = true from beq_iff_eq.mpr hqt), hqt]
      exact ht
    · rw [if_neg (show ¬(q.1 == t) = true from by simpa using hqt)]
      exact hacc q hq
  · rw [if_neg h] at hp
    rcases List.mem_append.mp hp with hp1 | hp2
    · exact hacc p hp1
    · rw [List.mem_singleton.mp hp2]
      exact ht

theorem token_list_embedding_fold (arr : List (List ℚ)) (d : String → Option Nat)
    (toks : List String) (acc : List (String × List ℚ))
    (hnd : (acc.map Prod.fst).Nodup)
    (hq : ∀ p ∈ acc, p.2 = embeddingAt arr d p.1 ∧ truthyIndex (d p.1) = true) :
    ((toks.foldl (tleStep arr d) acc).map Prod.fst).Nodup ∧
    (∀ p ∈ toks.foldl (tleStep arr d) acc,
      p.2 = embeddingAt arr d p.1 ∧ truthyIndex (d p.1) = true) ∧
    (∀ s, s ∈ (toks.foldl (tleStep arr d) acc).map Prod.fst ↔
      s ∈ acc.map Prod.fst ∨ (s ∈ toks ∧ truthyIndex (d s) = true)) := by
  induction toks generalizing acc with
  | nil =>
    refine ⟨hnd, hq, ?_⟩
    intro s
    simp
  | cons t ts ih =>
    rw [List.foldl_cons]
    by_cases htr : truthyIndex (d t) = true
    · have hstep : tleStep arr d acc t = dictInsert acc t (embeddingAt arr d t) := by
        unfold tleStep
        rw [if_pos htr]
      rw [hstep]
      have hnd2 := dictInsert_nodup acc t (embeddingAt arr d t) hnd
      have hq2 : ∀ p ∈ dictInsert acc t (embeddingAt arr d t),
          p.2 = embeddingAt arr d p.1 ∧ truthyIndex (d p.1) = true :=
        dictInsert_forall _ acc t _ hq ⟨rfl, htr⟩
      obtain ⟨a1, a2, a3⟩ := ih (dictInsert acc t (embeddingAt arr d t)) hnd2 hq2
      refine ⟨a1, a2, ?_⟩
      intro s
      rw [a3 s, dictInsert_keys_mem]
      constructor
      · rintro ((hs | hst) | ⟨hsts, hstr⟩)
        · exact Or.inl hs
        · subst hst
          exact Or.inr ⟨List.mem_cons_self _ _, htr⟩
        · exact Or.inr ⟨List.mem_cons_of_mem t hsts, hstr⟩
      · rintro (hs | ⟨hsmem, hstr⟩)
        · exact Or.inl (Or.inl hs)
        · rcases List.mem_cons.mp hsmem with rfl | hsts
          · exact Or.inl (Or.inr rfl)
          · exact Or.inr ⟨hsts, hstr⟩
    · have hstep : tleStep arr d acc t = acc := by
        unfold tleStep
        rw [if_neg htr]
      rw [hstep]
      obtain ⟨a1, a2, a3⟩ := ih acc hnd hq
      refine ⟨a1, a2, ?_⟩
      intro s
      rw [a3 s]
      constructor
      · rintro (hs | ⟨hsts, hstr⟩)
        · exact Or.inl hs
        · exact Or.inr ⟨List.mem_cons_of_mem t hsts, hstr⟩
      · rintro (hs | ⟨hsmem, hstr⟩)
        · exact Or.inl hs
        · rcases List.mem_cons.mp hsmem with rfl | hsts
          · exact absurd hstr htr
          · exact Or.inr ⟨hsts, hstr⟩

/-- Counterexample to C4 as stated: the token is a key of the embedding
dictionary (with value 0), yet `token_list_embedding` produces no column for
it, because `if embedding_dictionary.get(token):` treats the index 0 like a
missing key. -/
theorem token_list_embedding_skips_index_zero :
    ((fun t => if t = "a" then some 0 else none) : String → Option Nat) "a" = some 0 ∧
    token_list_embedding [[1, 2]] (fun t => if t = "a" then some 0 else none) ["a"] = [] :=
  ⟨rfl, rfl⟩

/-- Claim C4 (amended): for every token list, `word_embeddings` produces a
dataframe whose columns are precisely those tokens of the list whose entry in
the embedding dictionary is a nonzero index (the code's truthiness guard
skips both missing tokens and the token at index 0), without duplicates, each
column holding the embedding vector stored in the embedding array at the
index the dictionary assigns to that token. -/
theorem word_embeddings_spec (token_vector : List (List String))
    (embedding_array : List (List ℚ)) (embedding_dictionary : String → Option Nat)
    (hvalid : ∀ t k, embedding_dictionary t = some k → k < embedding_array.length) :
    word_embeddings token_vector embedding_array embedding_dictionary =
      token_vector.map (token_list_embedding embedding_array embedding_dictionary) ∧
    ∀ token_list ∈ token_vector,
      ((token_list_embedding embedding_array embedding_dictionary token_list).map
        Prod.fst).Nodup ∧
      (∀ s, s ∈ (token_list_embedding embedding_array embedding_dictionary token_list).map
          Prod.fst ↔
        (s ∈ token_list ∧ ∃ k, embedding_dictionary s = some k ∧ k ≠ 0)) ∧
      (∀ p ∈ token_list_embedding embedding_array embedding_dictionary token_list,
        ∃ k, embedding_dictionary p.1 = some k ∧ k ≠ 0 ∧
          ∃ hk : k < embedding_array.length, p.2 = embedding_array.get ⟨k, hk⟩) := by
  refine ⟨rfl, ?_⟩
  intro token_list _
  obtain ⟨a1, a2, a3⟩ := token_list_embedding_fold embedding_array embedding_dictionary
    token_list [] (by simp) (by simp)
  refine ⟨a1, ?_, ?_⟩
  · intro s
    rw [show token_list_embedding embedding_array embedding_dictionary token_list =
      token_list.foldl (tleStep embedding_array embedding_dictionary) [] from rfl, a3 s]
    simp [truthyIndex_iff]
  · intro p hp
    obtain ⟨hv, htr⟩ := a2 p hp
    rcases (truthyIndex_iff _).mp htr with ⟨k, hk, hk0⟩
    have hklt := hvalid p.1 k hk
    refine ⟨k, hk, hk0, hklt, ?_⟩
    rw [hv]
    unfold embeddingAt
    rw [hk]
    simp [List.getD_eq_getElem _ _ hklt, List.get_eq_getElem,
      List.getElem?_eq_getElem hklt]

/-- Witness for C4 at a concrete instance: one token list, a dictionary
sending the token to index 1 of a two-row array. -/
theorem word_embeddings_spec_witness :
    word_embeddings [["b"]] [[5], [7]] (fun _ => some 1) =
      [["b"]].map (token_list_embedding [[5], [7]] (fun _ => some 1)) ∧
    ∀ token_list ∈ [["b"]],
      ((token_list_embedding [[5], [7]] (fun _ => some 1) token_list).map Prod.fst).Nodup ∧
      (∀ s, s ∈ (token_list_embedding [[5], [7]] (fun _ => some 1) token_list).map
          Prod.fst ↔
        (s ∈ token_list ∧ ∃ k, (some 1 : Option Nat) = some k ∧ k ≠ 0)) ∧
      (∀ p ∈ token_list_embedding [[5], [7]] (fun _ => some 1) token_list,
        ∃ k, (some 1 : Option Nat) = some k ∧ k ≠ 0 ∧
          ∃ hk : k < ([[5], [7]] : List (List ℚ)).length,
            p.2 = ([[5], [7]] : List (List ℚ)).get ⟨k, hk⟩) :=
  word_embeddings_spec [["b"]] [[5], [7]] (fun _ => some 1)
    (by
      intro t k h
      have h2 : (1 : Nat) = k := by
        injection h
      rw [← h2]
      decide)

/-! ## `load_embeddings` / `normalize_array` (src/data/preprocess_data.py, lines 401-418)

`load_embeddings` unpickles the embedding array and dictionary (file I/O,
not modelled) and returns `normalize_array(np.vstack(embedding_array))`
together with the dictionary; `normalize_array` is modelled here over `ℝ`
row by row, since its row operations are independent. -/

/-- The Euclidean norm of one row: `np.sqrt(np.sum(np.square(array), axis=1))`
at this row. -/
noncomputable def rowNorm (row : List ℝ) : ℝ :=
  Real.sqrt ((row.map (fun x => x ^ 2)).sum)

/-- One row of `normalize_array`: the row divided by its norm, with a zero
norm replaced by 1 beforehand (`norms[norms == 0] = 1`). -/
noncomputable def normalizeRow (row : List ℝ) : List ℝ :=
  row.map (fun x => x / (if rowNorm row = 0 then 1 else rowNorm row))

/-- `normalize_array`: normalize every row. -/
noncomputable def normalize_array (array : List (List ℝ)) : List (List ℝ) :=
  array.map normalizeRow

theorem sum_sq_nonneg (row : List ℝ) : 0 ≤ (row.map (fun x => x ^ 2)).sum := by
  refine List.sum_nonneg ?_
  intro y hy
  rcases List.mem_map.mp hy with ⟨x, _, rfl⟩
  positivity

theorem sum_sq_pos (row : List ℝ) (x : ℝ) (hx0 : x ≠ 0) :
    x ∈ row → 0 < (row.map (fun y => y ^ 2)).sum := by
  induction row with
  | nil =>
    intro hx
    simp at hx
  | cons a l ih =>
    intro hx
    rw [List.map_cons, List.sum_cons]
    rcases List.mem_cons.mp hx with rfl | hmem
    · have h1 : 0 < x ^ 2 := by positivity
      have h2 := sum_sq_nonneg l
      linarith
    · have h2 : 0 < (l.map (fun y => y ^ 2)).sum := ih hmem
      have h3 : 0 ≤ a ^ 2 := sq_nonneg a
      linarith

theorem sum_map_div (l : List ℝ) (c : ℝ) :
    (l.map (fun x => x / c)).sum = l.sum / c := by
  induction l with
  | nil => simp
  | cons a t ih => rw [List.map_cons, List.sum_cons, List.sum_cons, ih, add_div]

theorem rowNorm_map_div (row : List ℝ) (c : ℝ) (hc : c ≠ 0)
    (hcsq : c ^ 2 = (row.map (fun y => y ^ 2)).sum) :
    rowNorm (row.map (fun y => y / c)) = 1 := by
  unfold rowNorm
  have key : ((row.map (fun y => y / c)).map (fun y => y ^ 2)).sum =
      (row.map (fun y => y ^ 2)).sum / c ^ 2 := by
    rw [List.map_map]
    have hcomp : ((fun y : ℝ => y ^ 2) ∘ fun y => y / c) =
        ((fun y => y / c ^ 2) ∘ fun y => y ^ 2) := by
      funext y
      simp [div_pow]
    rw [hcomp, ← List.map_map]
    exact sum_map_div _ _
  rw [key, ← hcsq, div_self (pow_ne_zero 2 hc), Real.sqrt_one]

theorem rowNorm_eq_zero_of_all_zero (row : List ℝ) (h : ∀ x ∈ row, x = 0) :
    rowNorm row = 0 := by
  unfold rowNorm
  have hsum : (row.map (fun x => x ^ 2)).sum = 0 := by
    refine List.sum_eq_zero ?_
    intro y hy
    rcases List.mem_map.mp hy with ⟨x, hx, rfl⟩
    rw [h x hx]
    ring
  rw [hsum, Real.sqrt_zero]

/-- Claim C10: `normalize_array` (hence the array `load_embeddings` returns)
is row-normalized without ever dividing by zero: every row of the result
corresponds to an input row; a row with some nonzero entry is scaled to
Euclidean norm 1, and an all-zero row is returned unchanged, its zero norm
having been replaced by 1 before dividing. -/
theorem normalize_array_spec (array : List (List ℝ)) (row : List ℝ) (h : row ∈ array) :
    normalizeRow row ∈ normalize_array array ∧
    ((∃ x ∈ row, x ≠ 0) → rowNorm (normalizeRow row) = 1) ∧
    ((∀ x ∈ row, x = 0) → normalizeRow row = row) := by
  refine ⟨List.mem_map.mpr ⟨row, h, rfl⟩, ?_, ?_⟩
  · rintro ⟨x, hx, hx0⟩
    have hs : 0 < (row.map (fun y => y ^ 2)).sum := sum_sq_pos row x hx0 hx
    have hn : 0 < rowNorm row := Real.sqrt_pos.mpr hs
    have hne : rowNorm row ≠ 0 := ne_of_gt hn
    have hrw : normalizeRow row = row.map (fun y => y / rowNorm row) := by
      unfold normalizeRow
      rw [if_neg hne]
    rw [hrw]
    refine rowNorm_map_div row (rowNorm row) hne ?_
    unfold rowNorm
    exact Real.sq_sqrt hs.le
  · intro hall
    have h0 : rowNorm row = 0 := rowNorm_eq_zero_of_all_zero row hall
    unfold normalizeRow
    rw [if_pos h0]
    have hmap : row.map (fun x => x / 1) = row.map id :=
      List.map_congr_left (fun x _ => div_one x)
    rw [hmap, List.map_id]

/-- Witness for C10 at the one-row array `[[3, 4]]`. -/
theorem normalize_array_spec_witness :
    normalizeRow [(3 : ℝ), 4] ∈ normalize_array [[(3 : ℝ), 4]] ∧
    ((∃ x ∈ [(3 : ℝ), 4], x ≠ 0) → rowNorm (normalizeRow [(3 : ℝ), 4]) = 1) ∧
    ((∀ x ∈ [(3 : ℝ), 4], x = 0) → normalizeRow [(3 : ℝ), 4] = [(3 : ℝ), 4]) :=
  normalize_array_spec [[(3 : ℝ), 4]] [(3 : ℝ), 4] (by simp)

/-- Witness for C3 at a concrete instance: one source token mapped to index
1 of a two-row source array, two target tokens mapped to indices 1 and 2 of
a three-row target array. -/
theorem create_translation_dictionary_spec_witness :
    (∃ tTrg,
      (create_translation_dictionary [["a"]] [["b"], ["c"]] [[0], [1]] (fun _ => some 1)
          [[0], [1], [2]] (fun t => if t = "b" then some 1 else some 2)).1.lookup ("a") =
        some tTrg ∧
      tTrg ∈ embeddedTokens (fun t => if t = "b" then some 1 else some 2)
        (uniqueTokens [["b"], ["c"]]) ∧
      ∀ u ∈ embeddedTokens (fun t => if t = "b" then some 1 else some 2)
          (uniqueTokens [["b"], ["c"]]),
        dotProduct (embeddingAt [[0], [1]] (fun _ => some 1) "a")
            (embeddingAt [[0], [1], [2]] (fun t => if t = "b" then some 1 else some 2) u) ≤
          dotProduct (embeddingAt [[0], [1]] (fun _ => some 1) "a")
            (embeddingAt [[0], [1], [2]] (fun t => if t = "b" then some 1 else some 2) tTrg)) ∧
    (create_translation_dictionary [["a"]] [["b"], ["c"]] [[0], [1]] (fun _ => some 1)
        [[0], [1], [2]] (fun t => if t = "b" then some 1 else some 2)).2 =
      (create_translation_dictionary [["b"], ["c"]] [["a"]] [[0], [1], [2]]
          (fun t => if t = "b" then some 1 else some 2) [[0], [1]] (fun _ => some 1)).1 :=
  create_translation_dictionary_spec [["a"]] [["b"], ["c"]] [[0], [1]] (fun _ => some 1)
    [[0], [1], [2]] (fun t => if t = "b" then some 1 else some 2) (by decide) "a"
    (by decide) (by decide)
